import Mathlib

/-!
Verification of the distributed linear-algebra kernels in
`heat/core/linalg.py` (distributed matrix multiplication, its block-map
machinery, QR argument validation, and `transpose`) against the design
specification.  The Python code is shallowly embedded: matrices are lists of
rows of integers (exact arithmetic in place of floating point), the
per-process execution of a collective algorithm is modelled as a function of
the process rank with communication resolved functionally, and Python
exceptions are modelled with `Except` / `Option` (a `none` marks a raised
`ZeroDivisionError` or an out-of-range tensor write).
-/

namespace HeatLinalg

/-- Modelled from the spec: the chunking contract of the communication layer
(`comm.chunk`), which is outside the covered source.  Section 3 of the spec
(ChunkDescriptor) requires an ordered sequence of extents covering the
dimension with no gaps or overlaps and sizes differing by at most one
element (standard block distribution: the first `n % p` ranks receive one
extra element).  `chunkSize n p r` is the extent of rank `r` when dimension
`n` is divided over `p` processes. -/
def chunkSize (n p r : Nat) : Nat :=
  n / p + if r < n % p then 1 else 0

/-- Modelled from the spec: start offset of rank `r`'s chunk (companion of
`chunkSize`, determined by the no-gap no-overlap requirement). -/
def chunkStart (n p r : Nat) : Nat :=
  r * (n / p) + min r (n % p)

/-- Python integer division: `a // b` raises `ZeroDivisionError` when `b = 0`. -/
def pydiv (a b : Nat) : Option Nat :=
  if b = 0 then none else some (a / b)

/-- Python modulo: `a % b` raises `ZeroDivisionError` when `b = 0`. -/
def pymod (a b : Nat) : Option Nat :=
  if b = 0 then none else some (a % b)

/-- Minimum of a list of naturals, `0` for the empty list; embeds
`torch.Tensor.min` on the gathered shape tables. -/
def lmin : List Nat → Nat
  | [] => 0
  | x :: xs => xs.foldl Nat.min x

/-- Matrices as lists of rows; entries are integers (exact arithmetic stands
in for the float entries of the source). -/
abbrev Mat := List (List Int)

/-- Inner product of two rows. -/
def dotL (xs ys : List Int) : Int :=
  (List.zipWith (· * ·) xs ys).sum

/-- Number of columns of a matrix (length of its first row). -/
def ncols (A : Mat) : Nat := (A.headD []).length

/-- Column `j` of a matrix. -/
def colL (B : Mat) (j : Nat) : List Int :=
  B.map (fun row => row.getD j 0)

/-- Dense single-process matrix product (`torch.matmul` on 2-D operands). -/
def matMulD (A B : Mat) : Mat :=
  A.map (fun ar => (List.range (ncols B)).map (fun j => dotL ar (colL B j)))

/-- Row slice `A[st : st+len, :]`. -/
def rowSlice (A : Mat) (st len : Nat) : Mat :=
  (A.drop st).take len

/-- Column slice `A[:, st : st+len]`. -/
def colSlice (A : Mat) (st len : Nat) : Mat :=
  A.map (fun r => (r.drop st).take len)

/-- Elementwise sum of two matrices of equal shape. -/
def matAdd (A B : Mat) : Mat :=
  List.zipWith (List.zipWith (· + ·)) A B

/-- The all-zero `m × n` matrix. -/
def zerosM (m n : Nat) : Mat :=
  List.replicate m (List.replicate n 0)

/-- Sum `z + f 0 + f 1 + ⋯ + f (p-1)`; embeds both an `Allreduce(SUM)` over
`p` ranks and an in-place accumulation loop over `p` iterations. -/
def sumIdx (p : Nat) (f : Nat → Mat) (z : Mat) : Mat :=
  (List.range p).foldl (fun acc r => matAdd acc (f r)) z

/-- An `L × Q` zero matrix with the block `H` written at rows
`st, …, st + H.length - 1` (embeds `c[slice, :] += hold` on a fresh zero
tensor). -/
def scatterRows (L Q st : Nat) (H : Mat) : Mat :=
  (List.range L).map
    (fun i => if st ≤ i ∧ i < st + H.length then H.getD (i - st) [] else List.replicate Q 0)

/-- Last column of a matrix as a column vector, `A[:, -1, None]`. -/
def lastColM (A : Mat) : Mat :=
  A.map (fun r => [r.getD (r.length - 1) 0])

/-- Last row of a matrix as a row vector, `B[None, -1, :]`. -/
def lastRowM (B : Mat) : Mat :=
  [B.getD (B.length - 1) []]

/-- Payloads of the `ValueError`s raised by the covered code; each
constructor records the data interpolated into the corresponding message
string. -/
inductive ValTag where
  /-- linalg.py:156-160, the contraction-shape check of `matmul`; carries the
  reported `a.gshape[-1]` and `b.gshape[-2]` (the spec files this under its
  ShapeError taxonomy). -/
  | mmShape (aLast bSecondLast : Nat)
  /-- linalg.py:903-907, `tiles_per_proc` given as a `torch.Tensor`; carries
  the reported `tiles_per_proc.numel()`. -/
  | tilesTensor (numel : Nat)
  /-- linalg.py:908-909, `qr` on an array that is not 2-dimensional. -/
  | qrNot2D
  /-- linalg.py:1862-1876, `transpose`: axes of the wrong length, or the
  split axis absent from the axes list (both paths raise the same message). -/
  | axesMismatch
  /-- linalg.py:1879-1888, `transpose`: `torch.permute` rejected the axes
  list; the torch exception is re-raised as `ValueError`. -/
  | permuteInvalid
  deriving DecidableEq, Repr

/-- Which argument a `TypeError` of the covered code complains about. -/
inductive TypeTag where
  /-- linalg.py:892-893, `qr` applied to a non-DNDarray. -/
  | qrANotDND
  /-- linalg.py:894-898, `tiles_per_proc` neither `int` nor `torch.Tensor`. -/
  | tilesKind
  /-- linalg.py:899-900, `calc_q` not a `bool`. -/
  | calcqNotBool
  /-- linalg.py:901-902, `overwrite_a` not a `bool`. -/
  | ovwNotBool
  deriving DecidableEq, Repr

/-- Python exceptions raised synchronously by the covered code. -/
inductive PyErr where
  | valueError (tag : ValTag)
  | typeError (tag : TypeTag)
  /-- linalg.py:280, split combinations beyond axes 0 and 1. -/
  | notImplementedError
  /-- A Python `ZeroDivisionError` (block-size arithmetic with a zero block
  size, e.g. linalg.py:299-302 when `kB = 0`). -/
  | zeroDivisionError
  deriving DecidableEq, Repr

/-! ### Block sizes of the ring-exchange matmul strategies (linalg.py:283-321)

Both operands are 2-D and split, so `len(gshape) - 1 = 1` and
`len(gshape) - 2 = 0`.  The local shapes of the operands follow the chunking
contract along the split axis and are the full extent along the other axis. -/

/-- Rows of `a`'s shard on rank `r` (`a.lshape[-2]`). -/
def aRowsL (asplit L p r : Nat) : Nat :=
  if asplit = 0 then chunkSize L p r else L

/-- Columns of `a`'s shard on rank `r` (`a.lshape[-1]`). -/
def aColsL (asplit n p r : Nat) : Nat :=
  if asplit = 0 then n else chunkSize n p r

/-- Rows of `b`'s shard on rank `r` (`b.lshape[0]`). -/
def bRowsL (bsplit n p r : Nat) : Nat :=
  if bsplit = 0 then chunkSize n p r else n

/-- Columns of `b`'s shard on rank `r` (`b.lshape[-1]`). -/
def bColsL (bsplit Q p r : Nat) : Nat :=
  if bsplit = 0 then Q else chunkSize Q p r

/-- The inner block size `kB`, linalg.py:283-297, as a function of the two
split axes, `a.gshape[-1]`, `b.gshape[0]` and the process count. -/
def kBOf (asplit bsplit aLast bFirst p : Nat) : Nat :=
  if asplit = 1 && bsplit = 0 then Nat.min (aLast / p) (bFirst / p)
  else if asplit = 0 && bsplit = 1 then aLast
  else if asplit = 1 then aLast / p
  else if bsplit = 0 then
    (if bFirst / p < aLast then bFirst / p else aLast)
  else 0

/-- `mB`, linalg.py:314: minimum of the gathered `a.lshape[-2]` column of the
shard-shape table. -/
def mBOf (asplit L p : Nat) : Nat :=
  lmin ((List.range p).map (aRowsL asplit L p))

/-- `nB`, linalg.py:315: minimum of the gathered `b.lshape[-1]` column of the
shard-shape table. -/
def nBOf (bsplit Q p : Nat) : Nat :=
  lmin ((List.range p).map (bColsL bsplit Q p))

/-! ### The `split_10` work loop (linalg.py:762-784)

`a` is split along axis 1 and `b` along axis 0.  Each rank multiplies its
`kB`-blocks of the contraction dimension, adds the last-column/last-row outer
product when its remainder flags (linalg.py:299-302) are set for both
operands, and the partial results are summed with `Allreduce(SUM)`. -/

/-- Remainder flag `rem_a` of rank `r` (linalg.py:299-300). -/
def remAFlag (kB lcols : Nat) : Bool :=
  lcols % kB != 0 || (kB == 1 && lcols != 1)

/-- Remainder flag `rem_b` of rank `r` (linalg.py:301-302). -/
def remBFlag (kB lrows : Nat) : Bool :=
  lrows % kB != 0 || (kB == 1 && lrows != 1)

/-- The `split_10` strategy: the value every rank holds after the final
`Allreduce`.  `none` embeds the `ZeroDivisionError` raised by
linalg.py:299-302 when `kB = 0`. -/
def matmulSplit10 (p : Nat) (A B : Mat) : Option Mat :=
  let L := A.length
  let n1 := ncols A
  let n2 := B.length
  let Q := ncols B
  let kB := kBOf 1 0 n1 n2 p
  if kB = 0 then none else
  let aLoc := fun r => colSlice A (chunkStart n1 p r) (chunkSize n1 p r)
  let bLoc := fun r => rowSlice B (chunkStart n2 p r) (chunkSize n2 p r)
  let mB := mBOf 1 L p
  let nB := nBOf 0 Q p
  let res := fun r =>
    let al := aLoc r
    let bl := bLoc r
    let base := sumIdx (ncols al / kB)
      (fun i => matMulD (colSlice (al.take mB) (i * kB) kB)
                        (colSlice (rowSlice bl (i * kB) kB) 0 nB))
      (zerosM L Q)
    if remAFlag kB (ncols al) && remBFlag kB bl.length then
      matAdd base (matMulD (lastColM al) (lastRowM bl))
    else base
  some (sumIdx p res (zerosM L Q))

/-! ### Distributed-matrix handles and the `matmul` entry -/

/-- A distributed matrix: global shape, partition axis, global data.  The
per-rank shard is derived through the chunking contract (`localOf`), per the
DistributedMatrix invariant of spec section 3. -/
structure DM where
  rows : Nat
  cols : Nat
  split : Option Nat
  data : Mat
  deriving DecidableEq, Repr

/-- Rank `r`'s local buffer of a distributed matrix over `p` processes. -/
def localOf (A : DM) (p r : Nat) : Mat :=
  match A.split with
  | none => A.data
  | some 0 => rowSlice A.data (chunkStart A.rows p r) (chunkSize A.rows p r)
  | some 1 => colSlice A.data (chunkStart A.cols p r) (chunkSize A.cols p r)
  | some _ => A.data

/-- Replace the partition axis of a handle, keeping the logical matrix; with
`some 0` this embeds the in-place `a.resplit_(0)` of linalg.py:177. -/
def setSplit (A : DM) (s : Option Nat) : DM :=
  ⟨A.rows, A.cols, s, A.data⟩

/-- Communication performed by a `matmul` call, as observable events. -/
inductive MMEvent where
  /-- An `Allreduce(MPI.SUM)`. -/
  | allreduce
  /-- The body of a split configuration whose data flow is not covered by the
  claims; it begins with collective communication (shape gathering). -/
  | unmodeledComm
  deriving DecidableEq, Repr

/-- Result handle of `matmul`: the partition axis assigned to `c` and, for
the configurations whose data flow is embedded, the logical result matrix. -/
structure MMRes where
  rsplit : Option Nat
  rdata : Option Mat
  deriving DecidableEq, Repr

/-- Everything observable about one rank's `matmul` call: the returned value
or exception, the communication events, and the operand handles after the
call (`matmul` may mutate `a` in place via `resplit_`). -/
structure MMOut where
  res : Except PyErr MMRes
  events : List MMEvent
  aAfter : DM
  bAfter : DM
  deriving Repr

/-- The partition axis `matmul` assigns to its result for 2-D non-vector
operands, by split configuration (linalg.py:204-214, 216-229, 231-243,
260-269, 356, 762-784; both-`None` returns an unsplit array,
linalg.py:169-184). -/
def matmulOutSplit (asplit bsplit : Option Nat) (L Q : Nat) : Except PyErr (Option Nat) :=
  match asplit, bsplit with
  | none, none => .ok none
  | some 0, none => .ok (some 0)
  | none, some 1 => .ok (some 1)
  | some 1, none => .ok (some (if 1 < Q then 1 else 0))
  | none, some 0 => .ok (some (if 1 < L then 0 else 0))
  | some 0, some 0 => .ok (some 0)
  | some 1, some 1 => .ok (some 1)
  | some 0, some 1 => .ok (some 0)
  | some 1, some 0 => .ok (some (if 1 < Q then 1 else 0))
  | _, _ => .error .notImplementedError

/-- Rank `r`'s execution of `matmul(a, b, allow_resplit)` on `p` processes
for 2-D operands.  The shape check of linalg.py:156-160 comes first; the
both-`None` branch (linalg.py:169-184) and the `split_10` branch
(linalg.py:762-784) are embedded with their data flow, the remaining
configurations with their result partition axis. -/
def matmulEntry (p r : Nat) (A B : DM) (allowResplit : Bool) : MMOut :=
  if A.cols ≠ B.rows then
    ⟨.error (.valueError (.mmShape A.cols B.rows)), [], A, B⟩
  else
    match A.split, B.split with
    | none, none =>
      if !allowResplit then
        ⟨.ok ⟨none, some (matMulD A.data B.data)⟩, [], A, B⟩
      else
        let a2 := setSplit A (some 0)
        let cData := sumIdx p
          (fun r2 => scatterRows A.rows (ncols B.data) (chunkStart A.rows p r2)
            (matMulD (localOf a2 p r2) B.data))
          (zerosM A.rows (ncols B.data))
        ⟨.ok ⟨none, some cData⟩, [.allreduce], a2, B⟩
    | some 1, some 0 =>
      match matmulSplit10 p A.data B.data with
      | some d =>
        ⟨.ok ⟨some (if 1 < B.cols then 1 else 0), some d⟩, [.allreduce], A, B⟩
      | none => ⟨.error .zeroDivisionError, [], A, B⟩
    | sa, sb =>
      match matmulOutSplit sa sb A.rows B.cols with
      | .ok s => ⟨.ok ⟨s, none⟩, [.unmodeledComm], A, B⟩
      | .error e => ⟨.error e, [], A, B⟩

/-! ### Argument validation of `qr` (linalg.py:892-909) -/

/-- The Python runtime kind of an argument passed to `qr`, as far as the
`isinstance` checks of linalg.py:892-907 can distinguish them.  A Python
`bool` is a subtype of `int`, so `pybool` is kept distinct from `pyint` and
counts as an `int` where the source tests `isinstance(x, int)`. -/
inductive PyArg where
  /-- A `DNDarray` with the given number of dimensions. -/
  | dnd (ndims : Nat)
  | pyint (v : Int)
  | pybool (b : Bool)
  /-- A `torch.Tensor` with the given number of elements. -/
  | tensor (numel : Nat)
  /-- Any other Python object. -/
  | other
  deriving DecidableEq, Repr

/-- The `isinstance(tiles_per_proc, (int, torch.Tensor))` test of
linalg.py:894. -/
def tilesKindOk : PyArg → Bool
  | .pyint _ => true
  | .pybool _ => true
  | .tensor _ => true
  | _ => false

/-- The `isinstance(x, bool)` test of linalg.py:899 and 901. -/
def isPyBool : PyArg → Bool
  | .pybool _ => true
  | _ => false

/-- The validation prefix of `qr` (linalg.py:892-909), run in source order
before any tiling, communication or copying. -/
def qrValidate (a tiles calcq ovw : PyArg) : Except PyErr Unit :=
  match a with
  | .dnd d =>
    if !tilesKindOk tiles then .error (.typeError .tilesKind)
    else if !isPyBool calcq then .error (.typeError .calcqNotBool)
    else if !isPyBool ovw then .error (.typeError .ovwNotBool)
    else
      match tiles with
      | .tensor m => .error (.valueError (.tilesTensor m))
      | _ => if d ≠ 2 then .error (.valueError .qrNot2D) else .ok ()
  | _ => .error (.typeError .qrANotDND)

/-- Observable actions of a `qr` call after validation. -/
inductive QREvent where
  /-- Entry into the factorization body (linalg.py:911 onward), which copies
  `a` and communicates. -/
  | proceed
  deriving DecidableEq, Repr

/-- A `qr` call up to the point where the factorization body starts: on a
validation error the call raises before performing any communication and
before touching `a`. -/
def qrEntry (a tiles calcq ovw : PyArg) : Except PyErr Unit × List QREvent :=
  match qrValidate a tiles calcq ovw with
  | .error e => (.error e, [])
  | .ok _ => (.ok (), [.proceed])

/-! ### `transpose` (linalg.py:1832-1888) -/

/-- `axes[i] += dimensions` for negative entries (linalg.py:1866-1870). -/
def normAxes (d : Nat) (axes : List Int) : List Int :=
  axes.map (fun x => if x < 0 then x + d else x)

/-- Whether a list has no duplicate entries (the property under which
`torch.permute` accepts the axes list). -/
def nodupB : List Int → Bool
  | [] => true
  | x :: t => t.all (fun y => !(y == x)) && nodupB t

/-- Whether `axes` is a valid permutation of `0, …, d-1`, the condition under
which `torch.permute` succeeds at linalg.py:1880; on failure the torch error
is re-raised as `ValueError` (linalg.py:1886-1888). -/
def isPermB (d : Nat) (axes : List Int) : Bool :=
  axes.length == d && nodupB axes && axes.all (fun x => 0 ≤ x && x < (d : Int))

/-- Python's `list.index`: position of the first occurrence, `none` when the
value is absent (where `list.index` raises `ValueError`). -/
def pyIndex (s : Int) : List Int → Option Nat
  | [] => none
  | x :: t => if x == s then some 0 else (pyIndex s t).map (· + 1)

/-- The split-remapping core of `transpose` on normalized axes: the
`axes.index(a.split)` lookup of linalg.py:1873-1876 followed by the
`permute` of linalg.py:1879-1888, returning the new partition axis. -/
def transposeSplitCore (d : Nat) (axes : List Int) (split : Option Nat) :
    Except PyErr (Option Nat) :=
  match split with
  | none =>
    if isPermB d axes then .ok none else .error (.valueError .permuteInvalid)
  | some s =>
    match pyIndex (s : Int) axes with
    | none => .error (.valueError .axesMismatch)
    | some i =>
      if isPermB d axes then .ok (some i) else .error (.valueError .permuteInvalid)

/-- `transpose` for a `d`-dimensional array with integer axes entries:
default axes are `reversed(range(d))` (linalg.py:1854-1855); given axes are
length-checked (linalg.py:1864-1865) and normalized, then the split is
remapped and the permutation applied. -/
def transposeSplit (d : Nat) (axesIn : Option (List Int)) (split : Option Nat) :
    Except PyErr (Option Nat) :=
  match axesIn with
  | none => transposeSplitCore d (((List.range d).reverse).map Int.ofNat) split
  | some l =>
    if l.length ≠ d then .error (.valueError .axesMismatch)
    else transposeSplitCore d (normAxes d l) split

/-! ### Block-map construction (linalg.py:283-463)

The two block maps are `process × blockrow × blockcol` tables of local start
coordinates, allocated as `torch.zeros` of a size derived from the global
shape (linalg.py:365-376 and 416-427) and filled by nested loops over
per-process block counts (linalg.py:387-405 and 437-455).  A write outside
the allocated table or a division by a zero block size raises, which the
`Option` layer records as `none`. -/

/-- A `process × blockrow × blockcol` table of `(row, col)` start
coordinates. -/
abbrev Grid := List (List (List (Nat × Nat)))

/-- Update the `i`-th entry of a list through `f`; `none` when `i` is out of
range (a torch index error). -/
def updL {α : Type} (f : α → Option α) : List α → Nat → Option (List α)
  | [], _ => none
  | x :: t, 0 => (f x).map (· :: t)
  | x :: t, i + 1 => (updL f t i).map (x :: ·)

/-- Bounds-checked write `g[pr, i, j] = v`. -/
def setG (g : Grid) (pr i j : Nat) (v : Nat × Nat) : Option Grid :=
  updL (fun pl => updL (fun row => updL (fun _ => some v) row j) pl i) g pr

/-- The all-zero block map of the given allocated dimensions
(`torch.zeros((p, d1, d2, 2))`). -/
def mkGrid (p d1 d2 : Nat) : Grid :=
  List.replicate p (List.replicate d1 (List.replicate d2 (0, 0)))

/-- Allocated extent of one block-map dimension: the global extent divided by
the block size, divided once more by the process count when this dimension is
the split axis (linalg.py:365-376, 416-427). -/
def allocDim (divP : Bool) (g B p : Nat) : Option Nat := do
  let x ← pydiv g B
  if divP then pydiv x p else some x

/-- Per-process block count along one dimension: the local extent divided by
the block size, divided additionally by the process count when some process
has extent exactly 1 in this dimension (linalg.py:393-401, 444-451). -/
def cntOf (flag : Bool) (p B sz : Nat) : Nat :=
  if flag then sz / B / p else sz / B

/-- Whether some process's shard has extent exactly 1 along a dimension
(linalg.py:380-384, 431-435). -/
def anySz1 (p : Nat) (f : Nat → Nat) : Bool :=
  ((List.range p).map f).any (fun x => x == 1)

/-- The write sequence of the nested block-map loops, in loop order: rank,
block row, block column, with value `(i*B0, j*B1)`. -/
def gridWrites (p : Nat) (c0 c1 : Nat → Nat) (B0 B1 : Nat) :
    List (Nat × Nat × Nat × (Nat × Nat)) :=
  (List.range p).flatMap (fun pr =>
    (List.range (c0 pr)).flatMap (fun i =>
      (List.range (c1 pr)).map (fun j => (pr, i, j, (i * B0, j * B1)))))

/-- Perform the write sequence on a block map, failing on the first
out-of-range write. -/
def applyWrites (g : Grid) : List (Nat × Nat × Nat × (Nat × Nat)) → Option Grid
  | [] => some g
  | (pr, i, j, v) :: ws => do applyWrites (← setG g pr i j v) ws

/-- Allocate and fill one operand's block map (linalg.py:365-405 for `a`,
416-455 for `b`). -/
def buildMap (p : Nat) (divP0 divP1 : Bool) (g0 g1 B0 B1 : Nat)
    (sz0 sz1 : Nat → Nat) (flag0 flag1 : Bool) : Option Grid := do
  let d1 ← allocDim divP0 g0 B0 p
  let d2 ← allocDim divP1 g1 B1 p
  applyWrites (mkGrid p d1 d2)
    (gridWrites p (fun r => cntOf flag0 p B0 (sz0 r)) (fun r => cntOf flag1 p B1 (sz1 r)) B0 B1)

/-- `a_block_map[:, :, cnt:, 1] += 1` (linalg.py:414): shift the column start
of every block whose column index is at least `cnt`. -/
def bumpA (g : Grid) (cnt : Nat) : Grid :=
  g.map (fun pl => pl.map (fun row =>
    (row.enum).map (fun x => if cnt ≤ x.1 then (x.2.1, x.2.2 + 1) else x.2)))

/-- `b_block_map[:, cnt:, :, 0] += 1` (linalg.py:463): shift the row start of
every block whose row index is at least `cnt`. -/
def bumpB (g : Grid) (cnt : Nat) : Grid :=
  g.map (fun pl => (pl.enum).map (fun x =>
    if cnt ≤ x.1 then x.2.map (fun v => (v.1 + 1, v.2)) else x.2))

/-- The remainder-shift loops (linalg.py:407-414 and 457-463): walk the
gathered remainder flags in rank order, incrementing the cursor at each set
flag and shifting the tail of the map. -/
def shiftLoop (bump : Grid → Nat → Grid) (g : Grid) (rems : List Bool) : Grid :=
  (rems.foldl (fun acc rem =>
    if rem then (bump acc.1 (acc.2 + 1), acc.2 + 1) else acc) (g, 0)).1

/-- Evaluate one Option-valued computation per rank, in rank order, failing
if any rank fails; embeds "each process computes its flags, then the results
are all-gathered". -/
def gatherBools (f : Nat → Option Bool) : Nat → Option (List Bool)
  | 0 => some []
  | k + 1 =>
    match gatherBools f k, f k with
    | some l, some b => some (l ++ [b])
    | _, _ => none

/-- The full block-map construction pipeline of `matmul` for two split 2-D
operands (linalg.py:283-463, excluding the index/lshape all-gathers, whose
values the chunking contract determines): block sizes, remainder flags,
allocation, fill loops and remainder shifts for both operands. -/
def buildBlockMaps (asplit bsplit L n Q p : Nat) : Option (Grid × Grid) := do
  let kB := kBOf asplit bsplit n n p
  let remA ← gatherBools (fun r => do
    let _ ← pymod (aColsL asplit n p r) kB
    some (remAFlag kB (aColsL asplit n p r))) p
  let remB ← gatherBools (fun r => do
    let _ ← pymod (bRowsL bsplit n p r) kB
    some (remBFlag kB (bRowsL bsplit n p r))) p
  let mB := mBOf asplit L p
  let nB := nBOf bsplit Q p
  let _remAOut ← gatherBools (fun r => do
    let m ← pymod (aRowsL asplit L p r) mB
    some (m != 0 || (kB == 1 && aRowsL asplit L p r != 1))) p
  let _remBOut ← gatherBools (fun r => do
    let m ← pymod (bColsL bsplit Q p r) nB
    some (m != 0 || (kB == 1 && bColsL bsplit Q p r != 1))) p
  let aG ← buildMap p (asplit == 0) (asplit == 1) L n mB kB
    (aRowsL asplit L p) (aColsL asplit n p)
    (anySz1 p (aRowsL asplit L p)) (anySz1 p (aColsL asplit n p))
  let aG2 := if bsplit = 0 then shiftLoop bumpA aG remB else aG
  let bG ← buildMap p (bsplit == 0) (bsplit == 1) n Q kB nB
    (bRowsL bsplit n p) (bColsL bsplit Q p)
    (anySz1 p (bRowsL bsplit n p)) (anySz1 p (bColsL bsplit Q p))
  let bG2 := if asplit = 1 then shiftLoop bumpB bG remA else bG
  some (aG2, bG2)

/-- Shape invariant of a block map: `p` process slabs of `d1 × d2` entries. -/
def dimsOk (p d1 d2 : Nat) (g : Grid) : Prop :=
  g.length = p ∧ ∀ pl ∈ g, pl.length = d1 ∧ ∀ row ∈ pl, row.length = d2

/-- The spec's stated partition-axis policy for the result of `matmul`
(spec section 4.2): prefer `a`'s axis; if `a` is unpartitioned, use `b`'s
axis; if both are unpartitioned the result is unpartitioned.  Stated from
the spec's words for comparison with `matmulOutSplit`, which embeds the
code. -/
def matmulSplitPolicySpec (asplit bsplit : Option Nat) : Option Nat :=
  match asplit with
  | some s => some s
  | none => bsplit

/-! ### Arithmetic facts about the chunk layout and block sizes -/

theorem foldl_min_le_init (l : List Nat) (a : Nat) : l.foldl Nat.min a ≤ a := by
  induction l generalizing a with
  | nil => exact Nat.le_refl a
  | cons x t ih =>
    exact Nat.le_trans (ih (Nat.min a x)) (Nat.min_le_left a x)

theorem foldl_min_le_mem {l : List Nat} {x : Nat} (h : x ∈ l) (a : Nat) :
    l.foldl Nat.min a ≤ x := by
  induction l generalizing a with
  | nil => cases h
  | cons y t ih =>
    rcases List.mem_cons.mp h with h1 | h1
    · subst h1
      exact Nat.le_trans (foldl_min_le_init t (Nat.min a x)) (Nat.min_le_right a x)
    · exact ih h1 (Nat.min a y)

theorem le_foldl_min {l : List Nat} {c a : Nat} (ha : c ≤ a) (h : ∀ x ∈ l, c ≤ x) :
    c ≤ l.foldl Nat.min a := by
  induction l generalizing a with
  | nil => exact ha
  | cons y t ih =>
    exact ih (Nat.le_min.mpr ⟨ha, h y (List.mem_cons_self y t)⟩)
      (fun x hx => h x (List.mem_cons_of_mem y hx))

theorem lmin_le {l : List Nat} {x : Nat} (h : x ∈ l) : lmin l ≤ x := by
  cases l with
  | nil => cases h
  | cons y t =>
    rcases List.mem_cons.mp h with h1 | h1
    · subst h1; exact foldl_min_le_init t x
    · exact foldl_min_le_mem h1 y

theorem le_lmin {l : List Nat} {c : Nat} (hne : l ≠ []) (h : ∀ x ∈ l, c ≤ x) :
    c ≤ lmin l := by
  cases l with
  | nil => cases hne rfl
  | cons y t =>
    exact le_foldl_min (h y (List.mem_cons_self y t))
      (fun x hx => h x (List.mem_cons_of_mem y hx))

theorem chunkSize_ge (n p r : Nat) : n / p ≤ chunkSize n p r :=
  Nat.le_add_right _ _

theorem chunkSize_le_succ (n p r : Nat) : chunkSize n p r ≤ n / p + 1 := by
  unfold chunkSize
  split <;> omega

theorem chunkSize_last (n p : Nat) (hp : 1 ≤ p) : chunkSize n p (p - 1) = n / p := by
  have hmod : n % p < p := Nat.mod_lt n hp
  unfold chunkSize
  have : ¬(p - 1 < n % p) := by omega
  simp [this]

theorem chunkSize_le (n p r : Nat) (hp : 1 ≤ p) : chunkSize n p r ≤ n := by
  unfold chunkSize
  split
  · rename_i hr
    have hmodpos : 1 ≤ n % p := Nat.lt_of_le_of_lt (Nat.zero_le r) hr
    have hnpos : 1 ≤ n := by
      by_contra hn
      have : n = 0 := by omega
      subst this
      simp at hmodpos
    have hp2 : 2 ≤ p := by
      have := Nat.mod_lt n hp
      omega
    have := Nat.div_lt_self hnpos hp2
    omega
  · exact Nat.div_le_self n p

theorem lmin_chunk (n p : Nat) (hp : 1 ≤ p) :
    lmin ((List.range p).map (chunkSize n p)) = n / p := by
  apply Nat.le_antisymm
  · exact Nat.le_trans
      (lmin_le (List.mem_map_of_mem (chunkSize n p)
        (List.mem_range.mpr (by omega : p - 1 < p))))
      (Nat.le_of_eq (chunkSize_last n p hp))
  · apply le_lmin
    · simp
      omega
    · intro x hx
      rcases List.mem_map.mp hx with ⟨r, _, hr2⟩
      exact hr2 ▸ chunkSize_ge n p r

theorem lmin_const (p c : Nat) (hp : 1 ≤ p) :
    lmin ((List.range p).map (fun _ => c)) = c := by
  apply Nat.le_antisymm
  · exact lmin_le (List.mem_map_of_mem _ (List.mem_range.mpr (by omega : 0 < p)))
  · apply le_lmin
    · simp
      omega
    · intro x hx
      rcases List.mem_map.mp hx with ⟨r, _, hr2⟩
      omega

theorem kBOf_00 (n p : Nat) : kBOf 0 0 n n p = n / p := by
  unfold kBOf
  simp only [Nat.zero_ne_one, Bool.false_and]
  norm_num
  intro h
  have := Nat.div_le_self n p
  omega

theorem kBOf_11 (n p : Nat) : kBOf 1 1 n n p = n / p := by
  simp [kBOf]

theorem kBOf_01 (n p : Nat) : kBOf 0 1 n n p = n := by
  simp [kBOf]

theorem kBOf_10 (n p : Nat) : kBOf 1 0 n n p = n / p := by
  simp [kBOf]

theorem alloc_split_pos {g p : Nat} (hp : 1 ≤ p) (hg : p ≤ g) :
    1 ≤ g / (g / p) / p := by
  have hq : 1 ≤ g / p := (Nat.one_le_div_iff hp).mpr hg
  have h1 : p * (g / p) ≤ g := by
    rw [Nat.mul_comm]
    exact Nat.div_mul_le_self g p
  have h2 : p ≤ g / (g / p) := (Nat.le_div_iff_mul_le hq).mpr h1
  exact (Nat.one_le_div_iff hp).mpr h2

/-! ### Success conditions for the block-map fill loops -/

theorem updL_some {α : Type} {P : α → Prop} {f : α → Option α} :
    ∀ (l : List α) (i : Nat), i < l.length → (∀ x ∈ l, P x) →
    (∀ x, P x → ∃ y, f x = some y ∧ P y) →
    ∃ l2, updL f l i = some l2 ∧ l2.length = l.length ∧ ∀ x ∈ l2, P x := by
  intro l
  induction l with
  | nil =>
    intro i hi _ _
    simp at hi
  | cons x t ih =>
    intro i hi hP hf
    cases i with
    | zero =>
      obtain ⟨y, hy, hPy⟩ := hf x (hP x (List.mem_cons_self x t))
      refine ⟨y :: t, by simp [updL, hy], by simp, ?_⟩
      intro z hz
      rcases List.mem_cons.mp hz with h1 | h1
      · exact h1 ▸ hPy
      · exact hP z (List.mem_cons_of_mem x h1)
    | succ i =>
      obtain ⟨t2, ht2, hlen, hmem⟩ := ih i (by simpa using hi)
        (fun z hz => hP z (List.mem_cons_of_mem x hz)) hf
      refine ⟨x :: t2, by simp [updL, ht2], by simp [hlen], ?_⟩
      intro z hz
      rcases List.mem_cons.mp hz with h1 | h1
      · exact h1 ▸ hP x (List.mem_cons_self x t)
      · exact hmem z h1

theorem setG_some {g : Grid} {p d1 d2 pr i j : Nat} {v : Nat × Nat}
    (hdim : dimsOk p d1 d2 g) (hpr : pr < p) (hi : i < d1) (hj : j < d2) :
    ∃ g2, setG g pr i j v = some g2 ∧ dimsOk p d1 d2 g2 := by
  obtain ⟨hlen, hmem⟩ := hdim
  have houter := updL_some (P := fun pl => pl.length = d1 ∧ ∀ row ∈ pl, row.length = d2)
    (f := fun pl => updL (fun row => updL (fun _ => some v) row j) pl i)
    g pr (by omega) hmem ?_
  · obtain ⟨g2, hg2, hglen, hgmem⟩ := houter
    exact ⟨g2, hg2, by omega, hgmem⟩
  · intro pl hpl
    have hinner := updL_some (P := fun (row : List (Nat × Nat)) => row.length = d2)
      (f := fun row => updL (fun _ => some v) row j)
      pl i (by omega) hpl.2 ?_
    · obtain ⟨pl2, hpl2, hplen, hpmem⟩ := hinner
      exact ⟨pl2, hpl2, by omega, hpmem⟩
    · intro row hrow
      have hrowu := updL_some (P := fun (_ : Nat × Nat) => True)
        (f := fun _ => some v) row j (by omega) (fun _ _ => trivial)
        (fun x _ => ⟨v, rfl, trivial⟩)
      obtain ⟨row2, hrow2, hrlen, _⟩ := hrowu
      exact ⟨row2, hrow2, by omega⟩

theorem mkGrid_dimsOk (p d1 d2 : Nat) : dimsOk p d1 d2 (mkGrid p d1 d2) := by
  refine ⟨by simp [mkGrid], ?_⟩
  intro pl hpl
  have h1 := List.eq_of_mem_replicate hpl
  subst h1
  refine ⟨by simp, ?_⟩
  intro row hrow
  have h2 := List.eq_of_mem_replicate hrow
  subst h2
  simp

theorem applyWrites_some {p d1 d2 : Nat} :
    ∀ (ws : List (Nat × Nat × Nat × (Nat × Nat))) (g : Grid), dimsOk p d1 d2 g →
    (∀ w ∈ ws, w.1 < p ∧ w.2.1 < d1 ∧ w.2.2.1 < d2) →
    ∃ g2, applyWrites g ws = some g2 ∧ dimsOk p d1 d2 g2 := by
  intro ws
  induction ws with
  | nil =>
    intro g hg _
    exact ⟨g, rfl, hg⟩
  | cons w t ih =>
    intro g hg hw
    obtain ⟨pr, i, j, v⟩ := w
    obtain ⟨hpr, hi, hj⟩ := hw _ (List.mem_cons_self _ t)
    obtain ⟨g1, hg1, hd1⟩ := setG_some (v := v) hg hpr hi hj
    obtain ⟨g2, hg2, hd2⟩ := ih g1 hd1 (fun x hx => hw x (List.mem_cons_of_mem _ hx))
    exact ⟨g2, by simpa [applyWrites, hg1] using hg2, hd2⟩

theorem gridWrites_mem {p : Nat} {c0 c1 : Nat → Nat} {B0 B1 : Nat}
    {w : Nat × Nat × Nat × (Nat × Nat)} (h : w ∈ gridWrites p c0 c1 B0 B1) :
    w.1 < p ∧ w.2.1 < c0 w.1 ∧ w.2.2.1 < c1 w.1 := by
  unfold gridWrites at h
  rcases List.mem_flatMap.mp h with ⟨pr, hpr, h1⟩
  rcases List.mem_flatMap.mp h1 with ⟨i, hi, h2⟩
  rcases List.mem_map.mp h2 with ⟨j, hj, h3⟩
  subst h3
  exact ⟨List.mem_range.mp hpr, List.mem_range.mp hi, List.mem_range.mp hj⟩

theorem allocDim_eq (divP : Bool) {g B p : Nat} (hB : B ≠ 0) (hp : p ≠ 0) :
    allocDim divP g B p = some (if divP then g / B / p else g / B) := by
  cases divP <;> simp [allocDim, pydiv, hB, hp]

theorem buildMap_some {p : Nat} (divP0 divP1 : Bool) (g0 g1 : Nat) {B0 B1 : Nat}
    {sz0 sz1 : Nat → Nat} {flag0 flag1 : Bool}
    (hp : p ≠ 0) (hB0 : B0 ≠ 0) (hB1 : B1 ≠ 0)
    (hc0 : ∀ r, r < p → cntOf flag0 p B0 (sz0 r) ≤ (if divP0 then g0 / B0 / p else g0 / B0))
    (hc1 : ∀ r, r < p → cntOf flag1 p B1 (sz1 r) ≤ (if divP1 then g1 / B1 / p else g1 / B1)) :
    ∃ g, buildMap p divP0 divP1 g0 g1 B0 B1 sz0 sz1 flag0 flag1 = some g ∧
      dimsOk p (if divP0 then g0 / B0 / p else g0 / B0)
        (if divP1 then g1 / B1 / p else g1 / B1) g := by
  have hwrites : ∀ w ∈ gridWrites p (fun r => cntOf flag0 p B0 (sz0 r))
      (fun r => cntOf flag1 p B1 (sz1 r)) B0 B1,
      w.1 < p ∧ w.2.1 < (if divP0 then g0 / B0 / p else g0 / B0) ∧
        w.2.2.1 < (if divP1 then g1 / B1 / p else g1 / B1) := by
    intro w hw
    obtain ⟨h1, h2, h3⟩ := gridWrites_mem hw
    exact ⟨h1, Nat.lt_of_lt_of_le h2 (hc0 w.1 h1), Nat.lt_of_lt_of_le h3 (hc1 w.1 h1)⟩
  obtain ⟨g2, hg2, hd2⟩ := applyWrites_some _ _ (mkGrid_dimsOk p _ _) hwrites
  refine ⟨g2, ?_, hd2⟩
  simp only [buildMap, allocDim_eq divP0 hB0 hp, allocDim_eq divP1 hB1 hp, Option.bind_some]
  exact hg2

theorem pymod_isSome {a b : Nat} (hb : b ≠ 0) : pymod a b = some (a % b) := by
  simp [pymod, hb]

theorem gatherBools_isSome {f : Nat → Option Bool} (h : ∀ r, (f r).isSome = true) :
    ∀ k, (gatherBools f k).isSome = true := by
  intro k
  induction k with
  | zero => rfl
  | succ k ih =>
    obtain ⟨l, hl⟩ := Option.isSome_iff_exists.mp ih
    obtain ⟨b, hb⟩ := Option.isSome_iff_exists.mp (h k)
    simp [gatherBools, hl, hb]

theorem anySz1_false_min {glob p : Nat} (hp : 1 ≤ p) (hg : p ≤ glob)
    (h : anySz1 p (chunkSize glob p) = false) : 2 ≤ glob / p := by
  have hmem : chunkSize glob p (p - 1) ∈ (List.range p).map (chunkSize glob p) :=
    List.mem_map_of_mem _ (List.mem_range.mpr (by omega))
  have hne : ¬(chunkSize glob p (p - 1) == 1) = true := by
    have := List.any_eq_false.mp h
    exact fun hc => by simpa using this _ hmem hc
  rw [chunkSize_last glob p hp] at hne
  have h1 : 1 ≤ glob / p := (Nat.one_le_div_iff hp).mpr hg
  simp at hne
  omega

theorem cnt_le_alloc_split {glob p r : Nat} (hp : 1 ≤ p) (hg : p ≤ glob) {flag : Bool}
    (h2 : flag = false → 2 ≤ glob / p) :
    cntOf flag p (glob / p) (chunkSize glob p r) ≤ glob / (glob / p) / p := by
  cases flag with
  | true =>
    simp only [cntOf, if_pos]
    exact Nat.div_le_div_right (Nat.div_le_div_right (chunkSize_le glob p r hp))
  | false =>
    simp only [cntOf, Bool.false_eq_true, if_false]
    have hB2 := h2 rfl
    have hsz := chunkSize_le_succ glob p r
    have hdiv : chunkSize glob p r / (glob / p) < 2 := by
      apply (Nat.div_lt_iff_lt_mul (by omega)).mpr
      omega
    have halloc := alloc_split_pos hp hg
    omega

theorem cnt_le_alloc_const (glob B p : Nat) (flag : Bool) :
    cntOf flag p B glob ≤ glob / B := by
  cases flag with
  | true =>
    simp only [cntOf, if_pos]
    exact Nat.div_le_self _ _
  | false =>
    simp [cntOf]

theorem aRowsL_0 (L p : Nat) : aRowsL 0 L p = chunkSize L p :=
  funext fun r => by simp [aRowsL]

theorem aRowsL_1 (L p : Nat) : aRowsL 1 L p = fun _ => L :=
  funext fun r => by simp [aRowsL]

theorem aColsL_0 (n p : Nat) : aColsL 0 n p = fun _ => n :=
  funext fun r => by simp [aColsL]

theorem aColsL_1 (n p : Nat) : aColsL 1 n p = chunkSize n p :=
  funext fun r => by simp [aColsL]

theorem bRowsL_0 (n p : Nat) : bRowsL 0 n p = chunkSize n p :=
  funext fun r => by simp [bRowsL]

theorem bRowsL_1 (n p : Nat) : bRowsL 1 n p = fun _ => n :=
  funext fun r => by simp [bRowsL]

theorem bColsL_0 (Q p : Nat) : bColsL 0 Q p = fun _ => Q :=
  funext fun r => by simp [bColsL]

theorem bColsL_1 (Q p : Nat) : bColsL 1 Q p = chunkSize Q p :=
  funext fun r => by simp [bColsL]

theorem mBOf_0 {L p : Nat} (hp : 1 ≤ p) : mBOf 0 L p = L / p := by
  rw [mBOf, aRowsL_0, lmin_chunk L p hp]

theorem mBOf_1 {L p : Nat} (hp : 1 ≤ p) : mBOf 1 L p = L := by
  rw [mBOf, aRowsL_1, lmin_const p L hp]

theorem nBOf_0 {Q p : Nat} (hp : 1 ≤ p) : nBOf 0 Q p = Q := by
  rw [nBOf, bColsL_0, lmin_const p Q hp]

theorem nBOf_1 {Q p : Nat} (hp : 1 ≤ p) : nBOf 1 Q p = Q / p := by
  rw [nBOf, bColsL_1, lmin_chunk Q p hp]

theorem bind_isSome {α β : Type} {x : Option α} {f : α → Option β}
    (hx : x.isSome = true) (hf : ∀ a, (f a).isSome = true) : (x >>= f).isSome = true := by
  obtain ⟨a, ha⟩ := Option.isSome_iff_exists.mp hx
  rw [ha]
  simpa using hf a

theorem buildBlockMaps_isSome (asplit bsplit L n Q p : Nat)
    (hk : kBOf asplit bsplit n n p ≠ 0)
    (hm : mBOf asplit L p ≠ 0)
    (hn2 : nBOf bsplit Q p ≠ 0)
    (hA : (buildMap p (asplit == 0) (asplit == 1) L n (mBOf asplit L p)
      (kBOf asplit bsplit n n p) (aRowsL asplit L p) (aColsL asplit n p)
      (anySz1 p (aRowsL asplit L p)) (anySz1 p (aColsL asplit n p))).isSome = true)
    (hB : (buildMap p (bsplit == 0) (bsplit == 1) n Q (kBOf asplit bsplit n n p)
      (nBOf bsplit Q p) (bRowsL bsplit n p) (bColsL bsplit Q p)
      (anySz1 p (bRowsL bsplit n p)) (anySz1 p (bColsL bsplit Q p))).isSome = true) :
    (buildBlockMaps asplit bsplit L n Q p).isSome = true := by
  simp only [buildBlockMaps]
  apply bind_isSome (gatherBools_isSome (fun r => by simp [pymod_isSome hk]) p)
  intro remA
  apply bind_isSome (gatherBools_isSome (fun r => by simp [pymod_isSome hk]) p)
  intro remB
  apply bind_isSome (gatherBools_isSome (fun r => by simp [pymod_isSome hm]) p)
  intro remAOut
  apply bind_isSome (gatherBools_isSome (fun r => by simp [pymod_isSome hn2]) p)
  intro remBOut
  apply bind_isSome hA
  intro aG
  apply bind_isSome hB
  intro bG
  rfl

theorem buildMap_split_const_isSome (p glob0 glob1 B1 : Nat) (hp : 1 ≤ p)
    (h0 : p ≤ glob0) (hB1 : B1 ≠ 0) (hB1le : B1 ≤ glob1) (flag1 : Bool) :
    (buildMap p true false glob0 glob1 (glob0 / p) B1 (chunkSize glob0 p)
      (fun _ => glob1) (anySz1 p (chunkSize glob0 p)) flag1).isSome = true := by
  have hB0 : glob0 / p ≠ 0 := by
    have := (Nat.one_le_div_iff hp).mpr h0
    omega
  obtain ⟨g, hg, _⟩ := buildMap_some true false glob0 glob1 (p := p)
    (by omega) hB0 hB1
    (fun r _ => by
      simpa using cnt_le_alloc_split (r := r) hp h0 (fun hf => anySz1_false_min hp h0 hf))
    (fun r _ => by simpa using cnt_le_alloc_const glob1 B1 p flag1)
  rw [hg]
  rfl

theorem buildMap_const_split_isSome (p glob0 glob1 B0 : Nat) (hp : 1 ≤ p)
    (h1 : p ≤ glob1) (hB0 : B0 ≠ 0) (hB0le : B0 ≤ glob0) (flag0 : Bool) :
    (buildMap p false true glob0 glob1 B0 (glob1 / p) (fun _ => glob0)
      (chunkSize glob1 p) flag0 (anySz1 p (chunkSize glob1 p))).isSome = true := by
  have hB1 : glob1 / p ≠ 0 := by
    have := (Nat.one_le_div_iff hp).mpr h1
    omega
  obtain ⟨g, hg, _⟩ := buildMap_some false true glob0 glob1 (p := p)
    (by omega) hB0 hB1
    (fun r _ => by simpa using cnt_le_alloc_const glob0 B0 p flag0)
    (fun r _ => by
      simpa using cnt_le_alloc_split (r := r) hp h1 (fun hf => anySz1_false_min hp h1 hf))
  rw [hg]
  rfl

theorem buildBlockMaps_total (asplit bsplit L n Q p : Nat)
    (ha : asplit = 0 ∨ asplit = 1) (hb : bsplit = 0 ∨ bsplit = 1)
    (hp : 1 ≤ p) (hL : p ≤ L) (hn : p ≤ n) (hQ : p ≤ Q) :
    (buildBlockMaps asplit bsplit L n Q p).isSome = true := by
  have hLp : (1:Nat) ≤ L / p := (Nat.one_le_div_iff hp).mpr hL
  have hnp : (1:Nat) ≤ n / p := (Nat.one_le_div_iff hp).mpr hn
  have hQp : (1:Nat) ≤ Q / p := (Nat.one_le_div_iff hp).mpr hQ
  rcases ha with ha | ha <;> rcases hb with hb | hb <;> subst ha <;> subst hb
  · apply buildBlockMaps_isSome
    · rw [kBOf_00]
      omega
    · rw [mBOf_0 hp]
      omega
    · rw [nBOf_0 hp]
      omega
    · rw [kBOf_00, mBOf_0 hp]
      exact buildMap_split_const_isSome p L n (n / p) hp hL (by omega) (Nat.div_le_self n p) _
    · rw [kBOf_00, nBOf_0 hp]
      exact buildMap_split_const_isSome p n Q Q hp hn (by omega) (Nat.le_refl Q) _
  · apply buildBlockMaps_isSome
    · rw [kBOf_01]
      omega
    · rw [mBOf_0 hp]
      omega
    · rw [nBOf_1 hp]
      omega
    · rw [kBOf_01, mBOf_0 hp]
      exact buildMap_split_const_isSome p L n n hp hL (by omega) (Nat.le_refl n) _
    · rw [kBOf_01, nBOf_1 hp]
      exact buildMap_const_split_isSome p n Q n hp hQ (by omega) (Nat.le_refl n) _
  · apply buildBlockMaps_isSome
    · rw [kBOf_10]
      omega
    · rw [mBOf_1 hp]
      omega
    · rw [nBOf_0 hp]
      omega
    · rw [kBOf_10, mBOf_1 hp]
      exact buildMap_const_split_isSome p L n L hp hn (by omega) (Nat.le_refl L) _
    · rw [kBOf_10, nBOf_0 hp]
      exact buildMap_split_const_isSome p n Q Q hp hn (by omega) (Nat.le_refl Q) _
  · apply buildBlockMaps_isSome
    · rw [kBOf_11]
      omega
    · rw [mBOf_1 hp]
      omega
    · rw [nBOf_1 hp]
      omega
    · rw [kBOf_11, mBOf_1 hp]
      exact buildMap_const_split_isSome p L n L hp hn (by omega) (Nat.le_refl L) _
    · rw [kBOf_11, nBOf_1 hp]
      exact buildMap_const_split_isSome p n Q (n / p) hp hQ (by omega) (Nat.div_le_self n p) _

/-! ### Facts about `pyIndex` and integer-axis permutations -/

theorem pyIndex_of_mem {s : Int} :
    ∀ {l : List Int}, s ∈ l →
    ∃ i, pyIndex s l = some i ∧ l.getD i 0 = s ∧ i < l.length := by
  intro l
  induction l with
  | nil => intro h; cases h
  | cons x t ih =>
    intro h
    by_cases hx : x = s
    · subst hx
      exact ⟨0, by simp [pyIndex], by simp, by simp⟩
    · have hmem : s ∈ t := by
        rcases List.mem_cons.mp h with h1 | h1
        · exact absurd h1.symm hx
        · exact h1
      obtain ⟨i, hi, hgd, hlt⟩ := ih hmem
      refine ⟨i + 1, ?_, by simpa using hgd, by simpa using hlt⟩
      have hbeq : (x == s) = false := by simpa using hx
      simp [pyIndex, hbeq, hi]

theorem pyIndex_eq_none {s : Int} :
    ∀ {l : List Int}, s ∉ l → pyIndex s l = none := by
  intro l
  induction l with
  | nil => intro _; rfl
  | cons x t ih =>
    intro h
    have hx : ¬x = s := fun hc => h (hc ▸ List.mem_cons_self x t)
    have hbeq : (x == s) = false := by simpa using hx
    have ht : s ∉ t := fun hc => h (List.mem_cons_of_mem x hc)
    simp [pyIndex, hbeq, ih ht]

theorem nodupB_iff : ∀ (l : List Int), nodupB l = true ↔ l.Nodup := by
  intro l
  induction l with
  | nil => simp [nodupB]
  | cons x t ih =>
    simp only [nodupB, Bool.and_eq_true, List.all_eq_true, List.nodup_cons, ← ih]
    constructor
    · rintro ⟨h1, h2⟩
      exact ⟨fun hc => by simpa using h1 x hc, h2⟩
    · rintro ⟨h1, h2⟩
      refine ⟨fun y hy => ?_, h2⟩
      simp only [Bool.not_eq_true', beq_eq_false_iff_ne, ne_eq]
      exact fun hyx => h1 (hyx ▸ hy)

theorem isPermB_parts {d : Nat} {axes : List Int} (h : isPermB d axes = true) :
    axes.length = d ∧ axes.Nodup ∧ ∀ x ∈ axes, 0 ≤ x ∧ x < (d : Int) := by
  simp only [isPermB, Bool.and_eq_true, beq_iff_eq, List.all_eq_true] at h
  obtain ⟨⟨h1, h2⟩, h3⟩ := h
  refine ⟨h1, (nodupB_iff axes).mp h2, fun x hx => ?_⟩
  have := h3 x hx
  simp only [Bool.and_eq_true, decide_eq_true_eq] at this
  exact this

theorem isPermB_mem {d : Nat} {axes : List Int} (h : isPermB d axes = true)
    {k : Nat} (hk : k < d) : (k : Int) ∈ axes := by
  obtain ⟨hlen, hnd, hall⟩ := isPermB_parts h
  have hsub : axes.toFinset ⊆ (Finset.range d).image (fun i : Nat => (i : Int)) := by
    intro x hx
    have hx2 := List.mem_toFinset.mp hx
    obtain ⟨hx0, hxd⟩ := hall x hx2
    refine Finset.mem_image.mpr ⟨x.toNat, Finset.mem_range.mpr ?_, ?_⟩
    · omega
    · omega
  have hcard : axes.toFinset.card = d := by
    rw [List.toFinset_card_of_nodup hnd]
    exact hlen
  have hinj : Function.Injective (fun i : Nat => (i : Int)) := fun a b hab => by
    simpa using hab
  have hcard2 : ((Finset.range d).image (fun i : Nat => (i : Int))).card = d := by
    rw [Finset.card_image_of_injective _ hinj, Finset.card_range]
  have heq : axes.toFinset = (Finset.range d).image (fun i : Nat => (i : Int)) :=
    Finset.eq_of_subset_of_card_le hsub (by omega)
  have hmem : (k : Int) ∈ (Finset.range d).image (fun i : Nat => (i : Int)) :=
    Finset.mem_image.mpr ⟨k, Finset.mem_range.mpr hk, rfl⟩
  exact List.mem_toFinset.mp (heq ▸ hmem)

/-! ### Claim theorems -/

/-- Claim C1 (failing input): the claim says `matmul(A, B)` equals the dense
product for every split combination and process count.  For `A = 2×3` of
ones split along axis 1 and `B = 3×2` of ones split along axis 0 on 2
processes, `kB = 3 / 2 = 1` and rank 0 (shard width 2) carries both
remainder flags, so the `split_10` work loop (linalg.py:762-784) adds the
last-column/last-row outer product of its shard although the block loop
already covered the whole shard; the all-reduced result is `[[4,4],[4,4]]`
while the dense product is `[[3,3],[3,3]]`.  The dispatch reaches this
branch (the shape check passes and block-map construction succeeds). -/
theorem matmul_split10_ones_wrong :
    (matmulEntry 2 0 ⟨2, 3, some 1, [[1, 1, 1], [1, 1, 1]]⟩
        ⟨3, 2, some 0, [[1, 1], [1, 1], [1, 1]]⟩ false).res =
      .ok ⟨some 1, some [[4, 4], [4, 4]]⟩ ∧
    matmulSplit10 2 [[1, 1, 1], [1, 1, 1]] [[1, 1], [1, 1], [1, 1]] =
      some [[4, 4], [4, 4]] ∧
    matMulD [[1, 1, 1], [1, 1, 1]] [[1, 1], [1, 1], [1, 1]] = [[3, 3], [3, 3]] ∧
    (buildBlockMaps 1 0 2 3 2 2).isSome = true ∧
    ([[4, 4], [4, 4]] : Mat) ≠ [[3, 3], [3, 3]] :=
  ⟨rfl, rfl, rfl, rfl, by decide⟩

/-- Claim C3: when `a.gshape[-1] ≠ b.gshape[0]`, `matmul` raises the shape
`ValueError` of linalg.py:156-160 (the spec's ShapeError category) carrying
the offending dimensions, identically on every rank, with no communication
events and both operand handles unchanged. -/
theorem matmul_shape_mismatch_error (p r : Nat) (A B : DM) (ar : Bool)
    (h : A.cols ≠ B.rows) :
    matmulEntry p r A B ar =
      ⟨.error (.valueError (.mmShape A.cols B.rows)), [], A, B⟩ := by
  simp [matmulEntry, h]

/-- Claim C3 witness at a concrete mismatched pair on 2 processes. -/
theorem matmul_shape_mismatch_error_witness :
    (3 : Nat) ≠ 4 ∧
    matmulEntry 2 1 ⟨2, 3, none, [[1, 2, 3], [4, 5, 6]]⟩
        ⟨4, 2, none, [[1, 0], [0, 1], [1, 1], [2, 2]]⟩ false =
      ⟨.error (.valueError (.mmShape 3 4)), [], ⟨2, 3, none, [[1, 2, 3], [4, 5, 6]]⟩,
        ⟨4, 2, none, [[1, 0], [0, 1], [1, 1], [2, 2]]⟩⟩ :=
  ⟨by decide,
    matmul_shape_mismatch_error 2 1 ⟨2, 3, none, [[1, 2, 3], [4, 5, 6]]⟩
      ⟨4, 2, none, [[1, 0], [0, 1], [1, 1], [2, 2]]⟩ false (by decide)⟩

/-- Claim C4 (counterexample): the claimed policy says the result split
always equals `a.split` when `a` is partitioned, but for `a.split = 1`,
`b.split = None` and a single-column `b` (here `L = 2`, `Q = 1`) the code
assigns split 0 (linalg.py:228), not `a`'s axis 1. -/
theorem matmul_out_split_policy_cex :
    matmulOutSplit (some 1) none 2 1 = .ok (some 0) ∧
    matmulSplitPolicySpec (some 1) none = some 1 ∧
    matmulOutSplit (some 1) none 2 1 ≠ .ok (matmulSplitPolicySpec (some 1) none) := by
  refine ⟨rfl, rfl, fun h => ?_⟩
  rw [show matmulOutSplit (some 1) none 2 1 = .ok (some 0) from rfl] at h
  simp [matmulSplitPolicySpec] at h

/-- Claim C4 (amended): for 2-D non-vector operands with splits in
`{None, 0, 1}`, the result partition axis follows the spec's prefer-`a`
policy except when `a.split = 1`, `b` is unpartitioned or split along axis
0, and `b` has at most one column, in which case the result is split along
axis 0; the assignment is a pure function of the inputs (deterministic). -/
theorem matmul_out_split_policy_amended (a b : Option Nat) (L Q : Nat)
    (ha : a = none ∨ a = some 0 ∨ a = some 1)
    (hb : b = none ∨ b = some 0 ∨ b = some 1) :
    matmulOutSplit a b L Q =
      .ok (if a = some 1 ∧ (b = none ∨ b = some 0) ∧ Q ≤ 1 then some 0
           else matmulSplitPolicySpec a b) := by
  rcases ha with rfl | rfl | rfl <;> rcases hb with rfl | rfl | rfl <;>
    rcases le_or_lt Q 1 with hQ | hQ <;>
    first
      | (simp [matmulOutSplit, matmulSplitPolicySpec,
          show ¬(1 < Q) from by omega, show Q ≤ 1 from by omega]; done)
      | (simp [matmulOutSplit, matmulSplitPolicySpec,
          show 1 < Q from by omega, show ¬(Q ≤ 1) from by omega]; done)
      | (simp [matmulOutSplit, matmulSplitPolicySpec]; done)

/-- Claim C4 witness: spec scenario 4 (`A` 5×3 unpartitioned, `B` 3×4 split
along 0) through the amended statement; the policy yields split 0. -/
theorem matmul_out_split_policy_amended_witness :
    ((none : Option Nat) = none ∨ (none : Option Nat) = some 0 ∨
      (none : Option Nat) = some 1) ∧
    ((some 0 : Option Nat) = none ∨ (some 0 : Option Nat) = some 0 ∨
      (some 0 : Option Nat) = some 1) ∧
    matmulOutSplit none (some 0) 5 4 =
      .ok (if (none : Option Nat) = some 1 ∧
              ((some 0 : Option Nat) = none ∨ (some 0 : Option Nat) = some 0) ∧
              (4 : Nat) ≤ 1
           then some 0 else matmulSplitPolicySpec none (some 0)) :=
  ⟨Or.inl rfl, Or.inr (Or.inl rfl),
    matmul_out_split_policy_amended none (some 0) 5 4 (Or.inl rfl) (Or.inr (Or.inl rfl))⟩

/-- Claim C5: in the ring-exchange strategies (split combinations 0/0, 1/1,
0/1) the block sizes `mB`, `kB`, `nB` equal the minimum extent along the
row, contraction and column dimension over the per-process shard shapes of
the gathered shape table (the contraction extents being `a.lshape[-1]` and
`b.lshape[0]`); in particular the `gshape // size` formulas of
linalg.py:283-297 agree with those minima under the chunking contract. -/
theorem matmul_block_sizes_min (asplit bsplit L n Q p : Nat) (hp : 1 ≤ p)
    (hcombo : (asplit = 0 ∧ bsplit = 0) ∨ (asplit = 1 ∧ bsplit = 1) ∨
      (asplit = 0 ∧ bsplit = 1)) :
    mBOf asplit L p = lmin ((List.range p).map (aRowsL asplit L p)) ∧
    nBOf bsplit Q p = lmin ((List.range p).map (bColsL bsplit Q p)) ∧
    kBOf asplit bsplit n n p =
      Nat.min (lmin ((List.range p).map (aColsL asplit n p)))
        (lmin ((List.range p).map (bRowsL bsplit n p))) := by
  refine ⟨rfl, rfl, ?_⟩
  rcases hcombo with ⟨rfl, rfl⟩ | ⟨rfl, rfl⟩ | ⟨rfl, rfl⟩
  · rw [kBOf_00, aColsL_0, bRowsL_0, lmin_const p n hp, lmin_chunk n p hp]
    exact (Nat.min_eq_right (Nat.div_le_self n p)).symm
  · rw [kBOf_11, aColsL_1, bRowsL_1, lmin_chunk n p hp, lmin_const p n hp]
    exact (Nat.min_eq_left (Nat.div_le_self n p)).symm
  · rw [kBOf_01, aColsL_0, bRowsL_1, lmin_const p n hp]
    exact (Nat.min_self n).symm

/-- Claim C5 witness: 4×5 times 5×3 operands, both split along axis 0, on 2
processes. -/
theorem matmul_block_sizes_min_witness :
    (1 : Nat) ≤ 2 ∧
    (((0 : Nat) = 0 ∧ (0 : Nat) = 0) ∨ ((0 : Nat) = 1 ∧ (0 : Nat) = 1) ∨
      ((0 : Nat) = 0 ∧ (0 : Nat) = 1)) ∧
    (mBOf 0 4 2 = lmin ((List.range 2).map (aRowsL 0 4 2)) ∧
     nBOf 0 3 2 = lmin ((List.range 2).map (bColsL 0 3 2)) ∧
     kBOf 0 0 5 5 2 =
       Nat.min (lmin ((List.range 2).map (aColsL 0 5 2)))
         (lmin ((List.range 2).map (bRowsL 0 5 2)))) :=
  ⟨by decide, Or.inl ⟨rfl, rfl⟩,
    matmul_block_sizes_min 0 0 4 5 3 2 (by decide) (Or.inl ⟨rfl, rfl⟩)⟩

/-- Claim C6 (counterexample): the claim says block-map construction never
fails when some shard has size 1 along the partitioned axis.  With `a` of
size 3×4 split along axis 0 on 4 processes (shard rows 1, 1, 1, 0) a shard
does have size 1, yet the minimum row extent `mB` is 0 and the remainder
check `a.lshape[-2] % mB` (linalg.py:319) raises `ZeroDivisionError` before
any block map is filled. -/
theorem block_maps_size1_cex :
    anySz1 4 (aRowsL 0 3 4) = true ∧
    chunkSize 3 4 3 = 0 ∧
    buildBlockMaps 0 0 3 4 4 4 = none := by
  refine ⟨by decide, by decide, ?_⟩
  rfl

/-- Claim C6 (amended): when additionally every process's shard is nonempty
(the process count is at most each global extent), a size-1 shard along the
partitioned axis of either operand does not break block-map construction:
the pipeline of linalg.py:283-463 completes with both maps allocated with
nonzero grid dimensions, and in the presence of a size-1 extent the block
counts are the local extent divided by the block size and additionally by
the process count (`cntOf true`). -/
theorem block_maps_size1_amended (asplit bsplit L n Q p : Nat)
    (ha : asplit = 0 ∨ asplit = 1) (hb : bsplit = 0 ∨ bsplit = 1)
    (hp : 1 ≤ p) (hL : p ≤ L) (hn : p ≤ n) (hQ : p ≤ Q)
    (hsz1 : (if asplit = 0 then anySz1 p (aRowsL asplit L p)
             else anySz1 p (aColsL asplit n p)) = true ∨
            (if bsplit = 0 then anySz1 p (bRowsL bsplit n p)
             else anySz1 p (bColsL bsplit Q p)) = true) :
    (buildBlockMaps asplit bsplit L n Q p).isSome = true ∧
    (∀ B sz, cntOf true p B sz = sz / B / p) :=
  ⟨buildBlockMaps_total asplit bsplit L n Q p ha hb hp hL hn hQ,
    fun _ _ => rfl⟩

/-- Claim C6 witness: `a` 3×4 split along axis 0 on 2 processes (shard rows
2 and 1, so a size-1 shard is present), `b` 4×4 split along axis 0;
construction succeeds. -/
theorem block_maps_size1_amended_witness :
    ((0 : Nat) = 0 ∨ (0 : Nat) = 1) ∧ (1 : Nat) ≤ 2 ∧ (2 : Nat) ≤ 3 ∧
    (if (0 : Nat) = 0 then anySz1 2 (aRowsL 0 3 2)
     else anySz1 2 (aColsL 0 4 2)) = true ∧
    ((buildBlockMaps 0 0 3 4 4 2).isSome = true ∧
     (∀ B sz, cntOf true 2 B sz = sz / B / 2)) :=
  ⟨Or.inl rfl, by decide, by decide, by decide,
    block_maps_size1_amended 0 0 3 4 4 2 (Or.inl rfl) (Or.inl rfl)
      (by decide) (by decide) (by decide) (by decide) (Or.inl (by decide))⟩

/-- Claim C7: whenever `a` is not a DNDarray, or is a DNDarray that is not
2-dimensional, or `calc_q` or `overwrite_a` is not a `bool`, `qr` raises a
`TypeError` or `ValueError` from its validation prefix (linalg.py:892-909),
before any communication and with no distributed state touched (the empty
event list). -/
theorem qr_validation_errors (a tiles calcq ovw : PyArg)
    (h : (∀ d, a ≠ .dnd d) ∨ (∃ d, a = .dnd d ∧ d ≠ 2) ∨
      isPyBool calcq = false ∨ isPyBool ovw = false) :
    ∃ e, qrEntry a tiles calcq ovw = (.error e, []) ∧
      ((∃ t, e = .typeError t) ∨ (∃ v, e = .valueError v)) := by
  cases a with
  | dnd d =>
    cases htk : tilesKindOk tiles with
    | false =>
      exact ⟨.typeError .tilesKind, by simp [qrEntry, qrValidate, htk], .inl ⟨_, rfl⟩⟩
    | true =>
      cases hcq : isPyBool calcq with
      | false =>
        exact ⟨.typeError .calcqNotBool, by simp [qrEntry, qrValidate, htk, hcq],
          .inl ⟨_, rfl⟩⟩
      | true =>
        cases hov : isPyBool ovw with
        | false =>
          exact ⟨.typeError .ovwNotBool, by simp [qrEntry, qrValidate, htk, hcq, hov],
            .inl ⟨_, rfl⟩⟩
        | true =>
          have hd : d ≠ 2 := by
            rcases h with h | h | h | h
            · exact absurd rfl (h d)
            · obtain ⟨d2, hd2, hne⟩ := h
              have : d = d2 := by
                injection hd2
              exact this ▸ hne
            · rw [h] at hcq
              cases hcq
            · rw [h] at hov
              cases hov
          cases tiles with
          | tensor m =>
            exact ⟨.valueError (.tilesTensor m),
              by simp [qrEntry, qrValidate, htk, hcq, hov], .inr ⟨_, rfl⟩⟩
          | pyint v =>
            exact ⟨.valueError .qrNot2D,
              by simp [qrEntry, qrValidate, htk, hcq, hov, hd], .inr ⟨_, rfl⟩⟩
          | pybool b =>
            exact ⟨.valueError .qrNot2D,
              by simp [qrEntry, qrValidate, htk, hcq, hov, hd], .inr ⟨_, rfl⟩⟩
          | dnd d2 => cases htk
          | other => cases htk
  | pyint v =>
    exact ⟨.typeError .qrANotDND, by simp [qrEntry, qrValidate], .inl ⟨_, rfl⟩⟩
  | pybool b =>
    exact ⟨.typeError .qrANotDND, by simp [qrEntry, qrValidate], .inl ⟨_, rfl⟩⟩
  | tensor m =>
    exact ⟨.typeError .qrANotDND, by simp [qrEntry, qrValidate], .inl ⟨_, rfl⟩⟩
  | other =>
    exact ⟨.typeError .qrANotDND, by simp [qrEntry, qrValidate], .inl ⟨_, rfl⟩⟩

/-- Claim C7 witness: a 3-dimensional DNDarray with otherwise valid
arguments raises before any communication. -/
theorem qr_validation_errors_witness :
    ((∀ d, PyArg.dnd 3 ≠ .dnd d) ∨ (∃ d, PyArg.dnd 3 = .dnd d ∧ d ≠ 2) ∨
      isPyBool (.pybool true) = false ∨ isPyBool (.pybool false) = false) ∧
    ∃ e, qrEntry (.dnd 3) (.pyint 1) (.pybool true) (.pybool false) = (.error e, []) ∧
      ((∃ t, e = .typeError t) ∨ (∃ v, e = .valueError v)) :=
  ⟨Or.inr (Or.inl ⟨3, rfl, by decide⟩),
    qr_validation_errors (.dnd 3) (.pyint 1) (.pybool true) (.pybool false)
      (Or.inr (Or.inl ⟨3, rfl, by decide⟩))⟩

/-- Claim C9: `tiles_per_proc` given as a `torch.Tensor` always raises the
`ValueError` of linalg.py:903-907 — for every element count `m`, including
single-element tensors, which the message text says are allowed — although
the preceding `isinstance` check of linalg.py:894 accepts `torch.Tensor`;
a plain `int` (including a 3-D `a`'s dimension check aside, with a valid
2-D `a`) passes validation. -/
theorem qr_tiles_tensor_always_valueerror (m : Nat) (d : Nat) (cq ow : Bool) (k : Int) :
    tilesKindOk (.tensor m) = true ∧
    qrValidate (.dnd d) (.tensor m) (.pybool cq) (.pybool ow) =
      .error (.valueError (.tilesTensor m)) ∧
    qrValidate (.dnd 2) (.pyint k) (.pybool cq) (.pybool ow) = .ok () :=
  ⟨rfl, rfl, rfl⟩

/-- Claim C8: for a `d`-dimensional array, a valid axes permutation maps the
partition axis `s` to the position where `s` occurs in the (normalized)
axes list; an unpartitioned array stays unpartitioned; and axes of the right
length that do not contain the partition axis raise a `ValueError`
(linalg.py:1873-1876). -/
theorem transpose_split_remap (d : Nat) (axes : List Int) (s : Nat)
    (hperm : isPermB d (normAxes d axes) = true) (hlen : axes.length = d)
    (hs : s < d) :
    (∃ i, transposeSplit d (some axes) (some s) = .ok (some i) ∧
      (normAxes d axes).getD i 0 = (s : Int) ∧ i < d) ∧
    transposeSplit d (some axes) none = .ok none ∧
    (∀ l : List Int, l.length = d → (s : Int) ∉ normAxes d l →
      transposeSplit d (some l) (some s) = .error (.valueError .axesMismatch)) := by
  refine ⟨?_, ?_, ?_⟩
  · have hmem : (s : Int) ∈ normAxes d axes := isPermB_mem hperm hs
    obtain ⟨i, hi, hgd, hlt⟩ := pyIndex_of_mem hmem
    refine ⟨i, ?_, hgd, ?_⟩
    · simp [transposeSplit, hlen, transposeSplitCore, hi, hperm]
    · have : (normAxes d axes).length = d := by
        simp [normAxes, hlen]
      omega
  · simp [transposeSplit, hlen, transposeSplitCore, hperm]
  · intro l hl hnm
    simp [transposeSplit, hl, transposeSplitCore, pyIndex_eq_none hnm]

/-- Claim C8 witness: `d = 2`, axes `[1, 0]`, split axis 0 moves to
position 1; and axes `[0, 0]` (length 2, not containing axis 1) raise. -/
theorem transpose_split_remap_witness :
    isPermB 2 (normAxes 2 [1, 0]) = true ∧ ([1, 0] : List Int).length = 2 ∧
    (0 : Nat) < 2 ∧
    ((∃ i, transposeSplit 2 (some [1, 0]) (some 0) = .ok (some i) ∧
       (normAxes 2 [1, 0]).getD i 0 = ((0 : Nat) : Int) ∧ i < 2) ∧
     transposeSplit 2 (some [1, 0]) none = .ok none ∧
     (∀ l : List Int, l.length = 2 → ((0 : Nat) : Int) ∉ normAxes 2 l →
       transposeSplit 2 (some l) (some 0) = .error (.valueError .axesMismatch))) :=
  ⟨by decide, by decide, by decide,
    transpose_split_remap 2 [1, 0] 0 (by decide) (by decide) (by decide)⟩

/-- Claim C10: with both operands unpartitioned and 2-D, the default
`allow_resplit = False` call performs no communication, returns the
unpartitioned local dense product and leaves both handles unchanged; with
`allow_resplit = True` the handle of `a` is mutated to split 0 (its local
buffer becoming the row chunk of rank `r`), and the all-reduced result is
assembled from the mutated shards (linalg.py:169-184). -/
theorem matmul_nonenone_frame (p r : Nat) (A B : DM)
    (hA : A.split = none) (hB : B.split = none) (hsh : A.cols = B.rows) :
    matmulEntry p r A B false = ⟨.ok ⟨none, some (matMulD A.data B.data)⟩, [], A, B⟩ ∧
    matmulEntry p r A B true =
      ⟨.ok ⟨none, some (sumIdx p (fun r2 =>
          scatterRows A.rows (ncols B.data) (chunkStart A.rows p r2)
            (matMulD (localOf (setSplit A (some 0)) p r2) B.data))
        (zerosM A.rows (ncols B.data)))⟩, [.allreduce], setSplit A (some 0), B⟩ ∧
    (setSplit A (some 0)).split = some 0 ∧
    localOf (setSplit A (some 0)) p r =
      rowSlice A.data (chunkStart A.rows p r) (chunkSize A.rows p r) := by
  refine ⟨?_, ?_, rfl, rfl⟩
  · simp [matmulEntry, hsh, hA, hB]
  · simp [matmulEntry, hsh, hA, hB]

/-- Claim C10 witness: 2×2 unpartitioned operands on 2 processes, rank 0. -/
theorem matmul_nonenone_frame_witness :
    (DM.mk 2 2 none [[1, 2], [3, 4]]).split = none ∧
    (DM.mk 2 2 none [[5, 6], [7, 8]]).split = none ∧
    (DM.mk 2 2 none [[1, 2], [3, 4]]).cols = (DM.mk 2 2 none [[5, 6], [7, 8]]).rows ∧
    (matmulEntry 2 0 ⟨2, 2, none, [[1, 2], [3, 4]]⟩ ⟨2, 2, none, [[5, 6], [7, 8]]⟩ false =
      ⟨.ok ⟨none, some (matMulD [[1, 2], [3, 4]] [[5, 6], [7, 8]])⟩, [],
        ⟨2, 2, none, [[1, 2], [3, 4]]⟩, ⟨2, 2, none, [[5, 6], [7, 8]]⟩⟩ ∧
     matmulEntry 2 0 ⟨2, 2, none, [[1, 2], [3, 4]]⟩ ⟨2, 2, none, [[5, 6], [7, 8]]⟩ true =
      ⟨.ok ⟨none, some (sumIdx 2 (fun r2 =>
          scatterRows 2 (ncols [[5, 6], [7, 8]]) (chunkStart 2 2 r2)
            (matMulD (localOf (setSplit ⟨2, 2, none, [[1, 2], [3, 4]]⟩ (some 0)) 2 r2)
              [[5, 6], [7, 8]]))
        (zerosM 2 (ncols [[5, 6], [7, 8]])))⟩, [.allreduce],
        setSplit ⟨2, 2, none, [[1, 2], [3, 4]]⟩ (some 0), ⟨2, 2, none, [[5, 6], [7, 8]]⟩⟩ ∧
     (setSplit ⟨2, 2, none, [[1, 2], [3, 4]]⟩ (some 0)).split = some 0 ∧
     localOf (setSplit ⟨2, 2, none, [[1, 2], [3, 4]]⟩ (some 0)) 2 0 =
       rowSlice [[1, 2], [3, 4]] (chunkStart 2 2 0) (chunkSize 2 2 0)) :=
  ⟨rfl, rfl, rfl,
    matmul_nonenone_frame 2 0 ⟨2, 2, none, [[1, 2], [3, 4]]⟩
      ⟨2, 2, none, [[5, 6], [7, 8]]⟩ rfl rfl rfl⟩

end HeatLinalg
